import Mathlib

set_option autoImplicit false

/-!
Verification of the GoSpeak voice-chat server against its specification.

The Go source is shallowly embedded: Go maps become association lists
(`List (key × value)`), Go structs become Lean structures, machine integers
become `Nat`/`Int` (with explicit `% 2 ^ 32` where uint32 wraparound matters),
and fallible operations return `Option`/`Except`.  Each section names the Go
file and function it embeds.
-/

namespace GoSpeak

/-! ## Association-list primitives (embedding of Go built-in maps)

Go `map[K]V` reads/writes are embedded as first-occurrence association-list
operations.  `aset` is `m[k] = v`, `aerase` is `delete(m, k)`, `alookup` is
`v, ok := m[k]`.  Go map iteration order is unspecified; the list order is a
determinization of it (no claim below depends on enumeration order).
-/

def alookup {α β : Type} [DecidableEq α] : List (α × β) → α → Option β
  | [], _ => none
  | (k, v) :: rest, x => if k = x then some v else alookup rest x

def aset {α β : Type} [DecidableEq α] : List (α × β) → α → β → List (α × β)
  | [], k, v => [(k, v)]
  | (k0, v0) :: rest, k, v =>
      if k0 = k then (k, v) :: rest else (k0, v0) :: aset rest k v

def aerase {α β : Type} [DecidableEq α] : List (α × β) → α → List (α × β)
  | [], _ => []
  | (k0, v0) :: rest, k => if k0 = k then rest else (k0, v0) :: aerase rest k

/-- The keys of an association list. -/
def akeys {α β : Type} (l : List (α × β)) : List α := l.map Prod.fst

theorem alookup_aset_self {α β : Type} [DecidableEq α] (l : List (α × β))
    (k : α) (v : β) : alookup (aset l k v) k = some v := by
  induction l with
  | nil => simp [aset, alookup]
  | cons p rest ih =>
      obtain ⟨k0, v0⟩ := p
      by_cases h : k0 = k <;> simp [aset, alookup, h, ih]

theorem alookup_aset_ne {α β : Type} [DecidableEq α] (l : List (α × β))
    (k x : α) (v : β) (hne : x ≠ k) : alookup (aset l k v) x = alookup l x := by
  have hkx : ¬ (k = x) := fun hh => hne hh.symm
  induction l with
  | nil => simp [aset, alookup, hkx]
  | cons p rest ih =>
      obtain ⟨k0, v0⟩ := p
      by_cases h : k0 = k
      · have hk0x : ¬ (k0 = x) := fun hh => hkx (h ▸ hh)
        simp [aset, alookup, h, hkx, hk0x]
      · by_cases hx : k0 = x <;> simp [aset, alookup, h, hx, hne, ih]

theorem alookup_aerase_ne {α β : Type} [DecidableEq α] (l : List (α × β))
    (k x : α) (hne : x ≠ k) : alookup (aerase l k) x = alookup l x := by
  have hkx : ¬ (k = x) := fun hh => hne hh.symm
  induction l with
  | nil => simp [aerase]
  | cons p rest ih =>
      obtain ⟨k0, v0⟩ := p
      by_cases h : k0 = k
      · simp [aerase, alookup, h, hkx]
      · by_cases hx : k0 = x <;> simp [aerase, alookup, h, hx, hne, ih]

theorem alookup_eq_none {α β : Type} [DecidableEq α] (l : List (α × β))
    (x : α) (h : x ∉ akeys l) : alookup l x = none := by
  induction l with
  | nil => rfl
  | cons p rest ih =>
      obtain ⟨k0, v0⟩ := p
      simp only [akeys, List.map_cons, List.mem_cons] at h
      push_neg at h
      have hk0 : ¬ (k0 = x) := fun hh => h.1 hh.symm
      simp only [alookup, if_neg hk0]
      exact ih h.2

theorem alookup_aerase_self {α β : Type} [DecidableEq α] (l : List (α × β))
    (k : α) (hnd : (akeys l).Nodup) : alookup (aerase l k) k = none := by
  induction l with
  | nil => rfl
  | cons p rest ih =>
      obtain ⟨k0, v0⟩ := p
      simp only [akeys, List.map_cons, List.nodup_cons] at hnd
      by_cases h : k0 = k
      · subst h
        simp only [aerase, if_pos rfl]
        exact alookup_eq_none rest k0 hnd.1
      · simp only [aerase, if_neg h, alookup, if_neg h]
        exact ih hnd.2

theorem mem_akeys_of_alookup {α β : Type} [DecidableEq α] (l : List (α × β))
    (x : α) (v : β) (h : alookup l x = some v) : x ∈ akeys l := by
  induction l with
  | nil => simp [alookup] at h
  | cons p rest ih =>
      obtain ⟨k0, v0⟩ := p
      simp only [alookup] at h
      by_cases hk : k0 = x
      · simp [akeys, hk]
      · simp only [if_neg hk] at h
        simp [akeys, ih h, List.mem_cons]
        right
        have := ih h
        simpa [akeys] using this

end GoSpeak

namespace GoSpeak

theorem alookup_mem {α β : Type} [DecidableEq α] (l : List (α × β))
    (x : α) (v : β) (h : alookup l x = some v) : (x, v) ∈ l := by
  induction l with
  | nil => simp [alookup] at h
  | cons p rest ih =>
      obtain ⟨k0, v0⟩ := p
      simp only [alookup] at h
      by_cases hk : k0 = x
      · rw [if_pos hk] at h
        injection h with h
        subst hk
        subst h
        exact List.mem_cons_self _ _
      · rw [if_neg hk] at h
        exact List.mem_cons_of_mem _ (ih h)

theorem mem_aset_elim {α β : Type} [DecidableEq α] (l : List (α × β))
    (k : α) (v : β) (p : α × β) (h : p ∈ aset l k v) : p = (k, v) ∨ p ∈ l := by
  induction l with
  | nil => simpa [aset] using h
  | cons q rest ih =>
      obtain ⟨k0, v0⟩ := q
      by_cases hk : k0 = k
      · simp only [aset, if_pos hk, List.mem_cons] at h
        rcases h with h | h
        · exact Or.inl h
        · exact Or.inr (List.mem_cons_of_mem _ h)
      · simp only [aset, if_neg hk, List.mem_cons] at h
        rcases h with h | h
        · exact Or.inr (by simp [h])
        · rcases ih h with h2 | h2
          · exact Or.inl h2
          · exact Or.inr (List.mem_cons_of_mem _ h2)

theorem mem_akeys_aset_elim {α β : Type} [DecidableEq α] (l : List (α × β))
    (k : α) (v : β) (x : α) (h : x ∈ akeys (aset l k v)) :
    x = k ∨ x ∈ akeys l := by
  simp only [akeys, List.mem_map] at h
  obtain ⟨p, hp, hx⟩ := h
  rcases mem_aset_elim l k v p hp with h2 | h2
  · left
    rw [← hx, h2]
  · right
    exact List.mem_map.mpr ⟨p, h2, hx⟩

theorem nodup_akeys_aset {α β : Type} [DecidableEq α] (l : List (α × β))
    (k : α) (v : β) (h : (akeys l).Nodup) : (akeys (aset l k v)).Nodup := by
  induction l with
  | nil => simp [aset, akeys]
  | cons p rest ih =>
      obtain ⟨k0, v0⟩ := p
      simp only [akeys, List.map_cons, List.nodup_cons] at h
      by_cases hk : k0 = k
      · subst hk
        simpa [aset, akeys, List.nodup_cons] using h
      · simp only [aset, if_neg hk, akeys, List.map_cons, List.nodup_cons]
        refine ⟨?_, ih h.2⟩
        intro hmem
        rcases mem_akeys_aset_elim rest k v k0 hmem with h2 | h2
        · exact hk h2
        · exact h.1 h2

theorem aerase_sublist {α β : Type} [DecidableEq α] (l : List (α × β))
    (k : α) : (aerase l k).Sublist l := by
  induction l with
  | nil => simp [aerase]
  | cons p rest ih =>
      obtain ⟨k0, v0⟩ := p
      by_cases hk : k0 = k
      · simp only [aerase, if_pos hk]
        exact List.sublist_cons_self _ _
      · simp only [aerase, if_neg hk]
        exact ih.cons₂ _

theorem mem_aerase_elim {α β : Type} [DecidableEq α] (l : List (α × β))
    (k : α) (p : α × β) (h : p ∈ aerase l k) : p ∈ l :=
  (aerase_sublist l k).mem h

theorem nodup_akeys_aerase {α β : Type} [DecidableEq α] (l : List (α × β))
    (k : α) (h : (akeys l).Nodup) : (akeys (aerase l k)).Nodup :=
  ((aerase_sublist l k).map Prod.fst).nodup h

end GoSpeak

namespace GoSpeak

/-! ## Channel membership manager (src/pkg/server/channels.go)

`ChannelManager` holds `members : map[int64]map[uint32]bool` (channelID → set
of sessionIDs) and `sessionToChannel : map[uint32]int64`.  The inner Go set
`map[uint32]bool` is embedded as a duplicate-free `List Nat`; channel IDs
(`int64`) are `Int`, session IDs (`uint32`) are `Nat`.
-/

structure ChannelManager where
  members : List (Int × List Nat)
  sessionToChannel : List (Nat × Int)
  deriving DecidableEq

/-- `NewChannelManager`: both maps start empty. -/
def ChannelManager.empty : ChannelManager := ⟨[], []⟩

/-- Insertion into a Go set `map[uint32]bool` (`sessions[sessionID] = true`). -/
def sinsert (l : List Nat) (s : Nat) : List Nat := if s ∈ l then l else l ++ [s]

/-- The member set of a channel; a missing key reads as the empty set. -/
def mOf (ms : List (Int × List Nat)) (c : Int) : List Nat := (alookup ms c).getD []

/-- The shared removal step of `Join` and `Leave`: delete `s` from channel
`c`'s member set and drop the channel's entry when the set becomes empty. -/
def removeFromMembers (ms : List (Int × List Nat)) (c : Int) (s : Nat) :
    List (Int × List Nat) :=
  match alookup ms c with
  | none => ms
  | some set0 =>
      if set0.erase s = [] then aerase ms c else aset ms c (set0.erase s)

/-- `ChannelManager.Join`: move `sessionID` out of its current channel (if
any) and into `channelID`; returns the previous channel (`0` if none). -/
def ChannelManager.join (cm : ChannelManager) (sessionID : Nat)
    (channelID : Int) : ChannelManager × Int :=
  match alookup cm.sessionToChannel sessionID with
  | some current =>
      let ms1 := removeFromMembers cm.members current sessionID
      ({ members := aset ms1 channelID (sinsert (mOf ms1 channelID) sessionID),
         sessionToChannel := aset cm.sessionToChannel sessionID channelID },
       current)
  | none =>
      ({ members := aset cm.members channelID
           (sinsert (mOf cm.members channelID) sessionID),
         sessionToChannel := aset cm.sessionToChannel sessionID channelID },
       0)

/-- `ChannelManager.Leave`: remove `sessionID` from its current channel;
returns that channel (`0` if the session was in none). -/
def ChannelManager.leave (cm : ChannelManager) (sessionID : Nat) :
    ChannelManager × Int :=
  match alookup cm.sessionToChannel sessionID with
  | none => (cm, 0)
  | some current =>
      ({ members := removeFromMembers cm.members current sessionID,
         sessionToChannel := aerase cm.sessionToChannel sessionID },
       current)

/-- `ChannelManager.Members`: all session IDs in a channel. -/
def ChannelManager.membersOf (cm : ChannelManager) (channelID : Int) :
    List Nat := mOf cm.members channelID

/-- `ChannelManager.ChannelOf`: the channel of a session, `0` if none
(Go map read of a missing key yields the zero value). -/
def ChannelManager.channelOf (cm : ChannelManager) (sessionID : Nat) : Int :=
  (alookup cm.sessionToChannel sessionID).getD 0

/-- `ChannelManager.MembersCount`: how many users are in a channel. -/
def ChannelManager.membersCount (cm : ChannelManager) (channelID : Int) : Nat :=
  (cm.membersOf channelID).length

/-- Well-formedness of the two Go maps: keys are unique and each member set
is duplicate-free (automatic for real Go maps). -/
def CMWf (cm : ChannelManager) : Prop :=
  (akeys cm.members).Nodup ∧ (akeys cm.sessionToChannel).Nodup ∧
    ∀ p ∈ cm.members, (p.2 : List Nat).Nodup

/-- The forward map (channel → members) and the reverse map
(session → channel) agree. -/
def CMAgree (cm : ChannelManager) : Prop :=
  ∀ s c, s ∈ cm.membersOf c ↔ alookup cm.sessionToChannel s = some c

theorem mem_sinsert (l : List Nat) (s x : Nat) :
    x ∈ sinsert l s ↔ x = s ∨ x ∈ l := by
  unfold sinsert
  by_cases h : s ∈ l
  · rw [if_pos h]
    constructor
    · exact Or.inr
    · rintro (rfl | hx)
      · exact h
      · exact hx
  · rw [if_neg h]
    simp [List.mem_append, or_comm]

theorem nodup_sinsert (l : List Nat) (s : Nat) (h : l.Nodup) :
    (sinsert l s).Nodup := by
  unfold sinsert
  by_cases hm : s ∈ l
  · rwa [if_pos hm]
  · rw [if_neg hm]
    rw [List.nodup_append]
    refine ⟨h, List.nodup_singleton s, ?_⟩
    intro a ha hae
    rw [List.mem_singleton] at hae
    exact hm (hae ▸ ha)

theorem mOf_nodup (ms : List (Int × List Nat)) (c : Int)
    (hv : ∀ p ∈ ms, (p.2 : List Nat).Nodup) : (mOf ms c).Nodup := by
  unfold mOf
  cases h : alookup ms c with
  | none => simp
  | some set0 => exact hv (c, set0) (alookup_mem ms c set0 h)

theorem rfm_mOf_self (ms : List (Int × List Nat)) (c : Int) (s : Nat)
    (hnd : (akeys ms).Nodup) :
    mOf (removeFromMembers ms c s) c = (mOf ms c).erase s := by
  unfold removeFromMembers
  cases h : alookup ms c with
  | none => simp [mOf, h]
  | some set0 =>
      dsimp only
      by_cases he : set0.erase s = []
      · rw [if_pos he]
        simp [mOf, alookup_aerase_self ms c hnd, h, he]
      · rw [if_neg he]
        simp [mOf, alookup_aset_self, h]

theorem rfm_lookup_ne (ms : List (Int × List Nat)) (c : Int) (s : Nat)
    (x : Int) (hne : x ≠ c) :
    alookup (removeFromMembers ms c s) x = alookup ms x := by
  unfold removeFromMembers
  cases h : alookup ms c with
  | none => rfl
  | some set0 =>
      dsimp only
      by_cases he : set0.erase s = []
      · rw [if_pos he]
        exact alookup_aerase_ne ms c x hne
      · rw [if_neg he]
        exact alookup_aset_ne ms c x _ hne

theorem rfm_wf (ms : List (Int × List Nat)) (c : Int) (s : Nat)
    (hk : (akeys ms).Nodup) (hv : ∀ p ∈ ms, (p.2 : List Nat).Nodup) :
    (akeys (removeFromMembers ms c s)).Nodup ∧
      ∀ p ∈ removeFromMembers ms c s, (p.2 : List Nat).Nodup := by
  unfold removeFromMembers
  cases h : alookup ms c with
  | none => exact ⟨hk, hv⟩
  | some set0 =>
      dsimp only
      by_cases he : set0.erase s = []
      · rw [if_pos he]
        exact ⟨nodup_akeys_aerase ms c hk,
          fun p hp => hv p (mem_aerase_elim ms c p hp)⟩
      · rw [if_neg he]
        refine ⟨nodup_akeys_aset ms c _ hk, ?_⟩
        intro p hp
        rcases mem_aset_elim ms c _ p hp with h2 | h2
        · rw [h2]
          exact (hv (c, set0) (alookup_mem ms c set0 h)).erase s
        · exact hv p h2

end GoSpeak

namespace GoSpeak

theorem mOf_aset_self (ms : List (Int × List Nat)) (x : Int) (v : List Nat) :
    mOf (aset ms x v) x = v := by
  unfold mOf
  rw [alookup_aset_self]
  rfl

theorem mOf_aset_ne (ms : List (Int × List Nat)) (x : Int) (v : List Nat)
    (y : Int) (h : y ≠ x) : mOf (aset ms x v) y = mOf ms y := by
  unfold mOf
  rw [alookup_aset_ne _ _ _ _ h]

theorem mem_rfm_iff (ms : List (Int × List Nat)) (cur : Int) (s : Nat)
    (hmk : (akeys ms).Nodup) (hmv : ∀ p ∈ ms, (p.2 : List Nat).Nodup)
    (x : Int) (a : Nat) :
    a ∈ mOf (removeFromMembers ms cur s) x ↔
      a ∈ mOf ms x ∧ (x = cur → a ≠ s) := by
  by_cases hx : x = cur
  · subst hx
    rw [rfm_mOf_self ms x s hmk, (mOf_nodup ms x hmv).mem_erase_iff]
    constructor
    · rintro ⟨hne, hmem⟩
      exact ⟨hmem, fun _ => hne⟩
    · rintro ⟨hmem, hne⟩
      exact ⟨hne rfl, hmem⟩
  · have : mOf (removeFromMembers ms cur s) x = mOf ms x := by
      unfold mOf
      rw [rfm_lookup_ne ms cur s x hx]
    rw [this]
    constructor
    · intro h2
      exact ⟨h2, fun he => absurd he hx⟩
    · exact fun h2 => h2.1

theorem join_preserves (cm : ChannelManager) (s : Nat) (c : Int)
    (hwf : CMWf cm) (hag : CMAgree cm) :
    CMWf (cm.join s c).1 ∧ CMAgree (cm.join s c).1 := by
  obtain ⟨hmk, hsk, hmv⟩ := hwf
  have hag2 : ∀ a b, a ∈ mOf cm.members b ↔
      alookup cm.sessionToChannel a = some b := hag
  cases hcur : alookup cm.sessionToChannel s with
  | none =>
      simp only [ChannelManager.join, hcur]
      constructor
      · refine ⟨nodup_akeys_aset _ _ _ hmk, nodup_akeys_aset _ _ _ hsk, ?_⟩
        intro p hp
        rcases mem_aset_elim _ _ _ p hp with h2 | h2
        · rw [h2]
          exact nodup_sinsert _ _ (mOf_nodup cm.members c hmv)
        · exact hmv p h2
      · intro s0 c0
        show s0 ∈ mOf (aset cm.members c (sinsert (mOf cm.members c) s)) c0 ↔
          alookup (aset cm.sessionToChannel s c) s0 = some c0
        by_cases hc0 : c0 = c
        · subst hc0
          rw [mOf_aset_self, mem_sinsert]
          by_cases hs0 : s0 = s
          · subst hs0
            rw [alookup_aset_self]
            simp
          · rw [alookup_aset_ne _ _ _ _ hs0]
            constructor
            · rintro (rfl | hx)
              · exact absurd rfl hs0
              · exact (hag2 s0 c0).mp hx
            · intro h2
              exact Or.inr ((hag2 s0 c0).mpr h2)
        · rw [mOf_aset_ne _ _ _ _ hc0]
          by_cases hs0 : s0 = s
          · subst hs0
            rw [alookup_aset_self]
            constructor
            · intro hx
              have h2 := (hag2 s0 c0).mp hx
              rw [hcur] at h2
              exact absurd h2 (by simp)
            · intro h2
              injection h2 with h2
              exact absurd h2.symm hc0
          · rw [alookup_aset_ne _ _ _ _ hs0]
            exact hag2 s0 c0
  | some cur =>
      simp only [ChannelManager.join, hcur]
      have hwf1 := rfm_wf cm.members cur s hmk hmv
      constructor
      · refine ⟨nodup_akeys_aset _ _ _ hwf1.1, nodup_akeys_aset _ _ _ hsk, ?_⟩
        intro p hp
        rcases mem_aset_elim _ _ _ p hp with h2 | h2
        · rw [h2]
          exact nodup_sinsert _ _ (mOf_nodup _ c hwf1.2)
        · exact hwf1.2 p h2
      · intro s0 c0
        show s0 ∈ mOf (aset (removeFromMembers cm.members cur s) c
            (sinsert (mOf (removeFromMembers cm.members cur s) c) s)) c0 ↔
          alookup (aset cm.sessionToChannel s c) s0 = some c0
        by_cases hc0 : c0 = c
        · subst hc0
          rw [mOf_aset_self, mem_sinsert]
          by_cases hs0 : s0 = s
          · subst hs0
            rw [alookup_aset_self]
            simp
          · rw [alookup_aset_ne _ _ _ _ hs0,
              mem_rfm_iff cm.members cur s hmk hmv c0 s0]
            constructor
            · rintro (rfl | hx)
              · exact absurd rfl hs0
              · exact (hag2 s0 c0).mp hx.1
            · intro h2
              exact Or.inr ⟨(hag2 s0 c0).mpr h2, fun _ => hs0⟩
        · rw [mOf_aset_ne _ _ _ _ hc0,
            mem_rfm_iff cm.members cur s hmk hmv c0 s0]
          by_cases hs0 : s0 = s
          · subst hs0
            rw [alookup_aset_self]
            constructor
            · rintro ⟨hx, himp⟩
              by_cases hcc : c0 = cur
              · exact absurd rfl (himp hcc)
              · have h2 := (hag2 s0 c0).mp hx
                rw [hcur] at h2
                injection h2 with h2
                exact absurd h2.symm hcc
            · intro h2
              injection h2 with h2
              exact absurd h2.symm hc0
          · rw [alookup_aset_ne _ _ _ _ hs0]
            constructor
            · rintro ⟨hx, _⟩
              exact (hag2 s0 c0).mp hx
            · intro h2
              exact ⟨(hag2 s0 c0).mpr h2, fun _ => hs0⟩

theorem leave_preserves (cm : ChannelManager) (s : Nat)
    (hwf : CMWf cm) (hag : CMAgree cm) :
    CMWf (cm.leave s).1 ∧ CMAgree (cm.leave s).1 := by
  obtain ⟨hmk, hsk, hmv⟩ := hwf
  have hag2 : ∀ a b, a ∈ mOf cm.members b ↔
      alookup cm.sessionToChannel a = some b := hag
  cases hcur : alookup cm.sessionToChannel s with
  | none =>
      simp only [ChannelManager.leave, hcur]
      exact ⟨⟨hmk, hsk, hmv⟩, hag⟩
  | some cur =>
      simp only [ChannelManager.leave, hcur]
      have hwf1 := rfm_wf cm.members cur s hmk hmv
      refine ⟨⟨hwf1.1, nodup_akeys_aerase _ _ hsk, hwf1.2⟩, ?_⟩
      intro s0 c0
      show s0 ∈ mOf (removeFromMembers cm.members cur s) c0 ↔
        alookup (aerase cm.sessionToChannel s) s0 = some c0
      rw [mem_rfm_iff cm.members cur s hmk hmv c0 s0]
      by_cases hs0 : s0 = s
      · subst hs0
        rw [alookup_aerase_self _ _ hsk]
        constructor
        · rintro ⟨hx, himp⟩
          by_cases hcc : c0 = cur
          · exact absurd rfl (himp hcc)
          · have h2 := (hag2 s0 c0).mp hx
            rw [hcur] at h2
            injection h2 with h2
            exact absurd h2.symm hcc
        · intro h2
          exact absurd h2 (by simp)
      · rw [alookup_aerase_ne _ _ _ hs0]
        constructor
        · rintro ⟨hx, _⟩
          exact (hag2 s0 c0).mp hx
        · intro h2
          exact ⟨(hag2 s0 c0).mpr h2, fun _ => hs0⟩

end GoSpeak

namespace GoSpeak

/-- An operation on the channel manager: `Join(sessionID, channelID)` or
`Leave(sessionID)`. -/
inductive CMOp : Type
  | join (sessionID : Nat) (channelID : Int)
  | leave (sessionID : Nat)
  deriving DecidableEq

/-- Apply one operation (discarding the returned previous-channel value). -/
def applyOp (cm : ChannelManager) : CMOp → ChannelManager
  | .join s c => (cm.join s c).1
  | .leave s => (cm.leave s).1

/-- Apply a sequence of Join/Leave operations starting from a fresh manager. -/
def applyOps (cm : ChannelManager) (ops : List CMOp) : ChannelManager :=
  ops.foldl applyOp cm

theorem applyOps_inv (cm : ChannelManager) (ops : List CMOp)
    (h : CMWf cm ∧ CMAgree cm) :
    CMWf (applyOps cm ops) ∧ CMAgree (applyOps cm ops) := by
  induction ops generalizing cm with
  | nil => exact h
  | cons op rest ih =>
      have hstep : CMWf (applyOp cm op) ∧ CMAgree (applyOp cm op) := by
        cases op with
        | join s c => exact join_preserves cm s c h.1 h.2
        | leave s => exact leave_preserves cm s h.1 h.2
      exact ih (applyOp cm op) hstep

theorem empty_inv : CMWf ChannelManager.empty ∧ CMAgree ChannelManager.empty := by
  constructor
  · exact ⟨List.nodup_nil, List.nodup_nil, fun p hp => absurd hp (List.not_mem_nil p)⟩
  · intro s c
    simp [ChannelManager.membersOf, mOf, alookup, ChannelManager.empty]

/-- C4: after any sequence of Join and Leave operations the channel manager's
forward map (channel → member set) and reverse map (session → channel) agree:
a session `s` is a member of channel `c` iff the reverse map sends `s` to `c`,
and consequently every session is a member of at most one channel. -/
theorem channelManager_maps_agree (ops : List CMOp) :
    (∀ s c, s ∈ (applyOps ChannelManager.empty ops).membersOf c ↔
        alookup (applyOps ChannelManager.empty ops).sessionToChannel s = some c) ∧
    (∀ s c c', s ∈ (applyOps ChannelManager.empty ops).membersOf c →
        s ∈ (applyOps ChannelManager.empty ops).membersOf c' → c = c') := by
  have h := applyOps_inv ChannelManager.empty ops empty_inv
  refine ⟨h.2, ?_⟩
  intro s c c' hc hc'
  have h1 := (h.2 s c).mp hc
  have h2 := (h.2 s c').mp hc'
  rw [h1] at h2
  injection h2

/-- Witness for C4 at a concrete operation sequence: after
`[Join(1, 2), Join(3, 2), Leave(3)]` session 1's reverse-map entry is
channel 2, obtained from the agreement theorem via its forward membership. -/
theorem channelManager_maps_agree_witness :
    alookup (applyOps ChannelManager.empty
      [CMOp.join 1 2, CMOp.join 3 2, CMOp.leave 3]).sessionToChannel 1 =
      some 2 :=
  (channelManager_maps_agree [CMOp.join 1 2, CMOp.join 3 2, CMOp.leave 3]).1 1 2
    |>.mp (by decide)

end GoSpeak

namespace GoSpeak

/-! ## JoinChannelRequest handling (src/pkg/server/control.go,
`Server.handleJoinChannel`)

Only the data the capacity path reads is embedded: the session lookup result,
the channel row fetched from the datastore (`nil` = not found), and the
channel manager.  Error codes: 3 session not found, 10 channel not found,
11 channel full.
-/

structure Channel where
  id : Int
  maxUsers : Int
  deriving DecidableEq

def handleJoinChannel (cm : ChannelManager) (sessionID : Nat)
    (sessionFound : Bool) (channel : Option Channel) :
    Except Int ChannelManager :=
  if sessionFound = false then .error 3
  else
    match channel with
    | none => .error 10
    | some ch =>
        if 0 < ch.maxUsers ∧ ch.maxUsers ≤ (cm.membersCount ch.id : Int) then
          .error 11
        else .ok (cm.join sessionID ch.id).1

/-- C10: the capacity check `MembersCount(ch.ID) >= ch.MaxUsers` counts the
requesting session itself, so a session already in a full channel has its
join request for that same channel rejected with code 11 even though the
join would not increase the member count. -/
theorem joinChannel_full_counts_requester (cm : ChannelManager) (s : Nat)
    (ch : Channel) (hmem : s ∈ cm.membersOf ch.id) (hmax : 0 < ch.maxUsers)
    (hcount : (cm.membersCount ch.id : Int) = ch.maxUsers) :
    handleJoinChannel cm s true (some ch) = .error 11 := by
  unfold handleJoinChannel
  rw [if_neg (by simp)]
  dsimp only
  rw [if_pos ⟨hmax, le_of_eq hcount.symm⟩]

/-- Witness for C10: session 1 alone in channel 5 with `max_users = 1`;
its re-join request is rejected with code 11. -/
theorem joinChannel_full_counts_requester_witness :
    handleJoinChannel (ChannelManager.empty.join 1 5).1 1 true
      (some { id := 5, maxUsers := 1 }) = .error 11 :=
  joinChannel_full_counts_requester (ChannelManager.empty.join 1 5).1 1
    { id := 5, maxUsers := 1 } (by decide) (by decide) (by decide)

end GoSpeak

namespace GoSpeak

/-! ## Username validation (src/pkg/server/control.go, `isValidUsername`)

A Go string is embedded as its rune (code-point) sequence `List Nat`;
`goLen` is Go's `len` (UTF-8 byte count).  Rune literals used by the source:
'a' = 97, 'z' = 122, 'A' = 65, 'Z' = 90, '0' = 48, '9' = 57, '_' = 95,
'-' = 45.
-/

def utf8Size (r : Nat) : Nat :=
  if r < 128 then 1 else if r < 2048 then 2 else if r < 65536 then 3 else 4

def goLen (name : List Nat) : Nat := (name.map utf8Size).sum

/-- The per-rune test inside `isValidUsername`'s loop (negated reject
condition `(r < 'a' || r > 'z') && … && r != '-'`). -/
def usernameRuneOK (r : Nat) : Bool :=
  !((decide (r < 97) || decide (122 < r)) && (decide (r < 65) || decide (90 < r)) &&
    (decide (r < 48) || decide (57 < r)) && (r != 95) && (r != 45))

def isValidUsername (name : List Nat) : Bool :=
  if goLen name = 0 ∨ 32 < goLen name then false
  else name.all usernameRuneOK

theorem usernameRuneOK_iff (r : Nat) :
    usernameRuneOK r = true ↔
      ((97 ≤ r ∧ r ≤ 122) ∨ (65 ≤ r ∧ r ≤ 90) ∨ (48 ≤ r ∧ r ≤ 57) ∨
        r = 95 ∨ r = 45) := by
  simp only [usernameRuneOK, Bool.not_eq_true', Bool.and_eq_false_iff,
    Bool.or_eq_false_iff, decide_eq_false_iff_not, not_lt, bne_eq_false_iff_eq]
  omega

theorem one_le_utf8Size (r : Nat) : 1 ≤ utf8Size r := by
  unfold utf8Size
  repeat' split
  all_goals omega

theorem length_le_goLen (name : List Nat) : name.length ≤ goLen name := by
  induction name with
  | nil => simp [goLen]
  | cons r rest ih =>
      simp only [goLen, List.map_cons, List.sum_cons, List.length_cons]
      have := one_le_utf8Size r
      simp only [goLen] at ih
      omega

theorem goLen_eq_length_of_ascii (name : List Nat)
    (h : ∀ r ∈ name, r < 128) : goLen name = name.length := by
  induction name with
  | nil => simp [goLen]
  | cons r rest ih =>
      simp only [goLen, List.map_cons, List.sum_cons, List.length_cons]
      rw [utf8Size, if_pos (h r (List.mem_cons_self r rest))]
      have := ih fun x hx => h x (List.mem_cons_of_mem r hx)
      simp only [goLen] at this
      omega

/-- C9: usernames of 1–32 characters drawn from letters, digits, underscore
and hyphen are accepted, and empty, longer-than-32-character, non-ASCII, or
otherwise-punctuated usernames are rejected. -/
theorem username_validation (name : List Nat) :
    (isValidUsername name = true ↔
      (1 ≤ name.length ∧ name.length ≤ 32 ∧ ∀ r ∈ name,
        ((97 ≤ r ∧ r ≤ 122) ∨ (65 ≤ r ∧ r ≤ 90) ∨ (48 ≤ r ∧ r ≤ 57) ∨
          r = 95 ∨ r = 45))) ∧
    ((∃ r ∈ name, 128 ≤ r) → isValidUsername name = false) ∧
    ((∃ r ∈ name, usernameRuneOK r = false) → isValidUsername name = false) ∧
    (name.length = 0 → isValidUsername name = false) ∧
    (32 < name.length → isValidUsername name = false) := by
  have hrune : ∀ r ∈ name, usernameRuneOK r = true →
      ((97 ≤ r ∧ r ≤ 122) ∨ (65 ≤ r ∧ r ≤ 90) ∨ (48 ≤ r ∧ r ≤ 57) ∨
        r = 95 ∨ r = 45) := fun r _ h => (usernameRuneOK_iff r).mp h
  refine ⟨?_, ?_, ?_, ?_, ?_⟩
  · constructor
    · intro h
      unfold isValidUsername at h
      by_cases hlen : goLen name = 0 ∨ 32 < goLen name
      · rw [if_pos hlen] at h
        exact absurd h (by simp)
      · rw [if_neg hlen] at h
        rw [List.all_eq_true] at h
        have hall : ∀ r ∈ name,
            ((97 ≤ r ∧ r ≤ 122) ∨ (65 ≤ r ∧ r ≤ 90) ∨ (48 ≤ r ∧ r ≤ 57) ∨
              r = 95 ∨ r = 45) := fun r hr => hrune r hr (h r hr)
        have hascii : ∀ r ∈ name, r < 128 := by
          intro r hr
          rcases hall r hr with h1 | h1 | h1 | h1 | h1 <;> omega
        have heq := goLen_eq_length_of_ascii name hascii
        push_neg at hlen
        exact ⟨by omega, by omega, hall⟩
    · rintro ⟨h1, h2, h3⟩
      have hascii : ∀ r ∈ name, r < 128 := by
        intro r hr
        rcases h3 r hr with hh | hh | hh | hh | hh <;> omega
      have heq := goLen_eq_length_of_ascii name hascii
      unfold isValidUsername
      rw [if_neg (by omega)]
      rw [List.all_eq_true]
      exact fun r hr => (usernameRuneOK_iff r).mpr (h3 r hr)
  · rintro ⟨r, hr, hge⟩
    have hnot : ¬ usernameRuneOK r = true := by
      intro h
      rcases (usernameRuneOK_iff r).mp h with h1 | h1 | h1 | h1 | h1 <;> omega
    unfold isValidUsername
    by_cases hlen : goLen name = 0 ∨ 32 < goLen name
    · rw [if_pos hlen]
    · rw [if_neg hlen, List.all_eq_false]
      exact ⟨r, hr, hnot⟩
  · rintro ⟨r, hr, hfalse⟩
    have hnot : ¬ usernameRuneOK r = true := by simp [hfalse]
    unfold isValidUsername
    by_cases hlen : goLen name = 0 ∨ 32 < goLen name
    · rw [if_pos hlen]
    · rw [if_neg hlen, List.all_eq_false]
      exact ⟨r, hr, hnot⟩
  · intro h0
    have hnil : name = [] := List.length_eq_zero.mp h0
    unfold isValidUsername
    rw [if_pos (Or.inl (by simp [hnil, goLen]))]
  · intro hgt
    have := length_le_goLen name
    unfold isValidUsername
    rw [if_pos (Or.inr (by omega))]

/-- Witness for C9: the username "alice" (runes 97 108 105 99 101) is
accepted, via the acceptance direction of the validation theorem. -/
theorem username_validation_witness :
    isValidUsername [97, 108, 105, 99, 101] = true :=
  (username_validation [97, 108, 105, 99, 101]).1.mpr (by decide)

end GoSpeak

namespace GoSpeak

/-! ## RBAC and token creation (src/pkg/rbac/rbac.go, src/pkg/model/role.go,
src/pkg/server/control.go `Server.handleCreateToken`)

Roles: user = 0, moderator = 1, admin = 2 (`model.Role` is a Go `int`).
-/

inductive Permission : Type
  | createChannel
  | deleteChannel
  | kickUser
  | banUser
  | manageTokens
  | editChannel
  | manageRoles
  deriving DecidableEq

/-- `rbac.permissionMatrix` / `rbac.HasPermission`: a map lookup on the
role; roles outside the matrix have no permissions. -/
def hasPermission (role : Int) (perm : Permission) : Bool :=
  if role = 2 then
    match perm with
    | .createChannel => true
    | .deleteChannel => true
    | .kickUser => true
    | .banUser => true
    | .manageTokens => true
    | .editChannel => true
    | .manageRoles => true
  else if role = 1 then
    match perm with
    | .kickUser => true
    | _ => false
  else if role = 0 then false
  else false

/-- `rbac.RequirePermission`: empty string means allowed. -/
def requirePermission (role : Int) (perm : Permission) : String :=
  if hasPermission role perm then "" else "permission denied"

/-- `model.ParseRole`: unrecognised strings map to the default user role. -/
def parseRole (s : String) : Int :=
  if s = "admin" then 2 else if s = "moderator" then 1 else 0

structure CreateTokenRequest where
  role : String
  channelScope : Int
  maxUses : Int
  expiresInSeconds : Int

/-- The row stored by `CreateToken` for the fields the claim concerns
(the random token value and its hash do not affect the stored role). -/
structure StoredToken where
  role : Int
  channelScope : Int
  createdBy : Int
  maxUses : Int
  deriving DecidableEq

/-- `Server.handleCreateToken`: permission check (error 30), then store a
token whose role is `ParseRole(req.Role)`. -/
def handleCreateToken (sessionRole : Int) (sessionUserID : Int)
    (req : CreateTokenRequest) : Except Int StoredToken :=
  if requirePermission sessionRole .manageTokens ≠ "" then .error 30
  else .ok { role := parseRole req.role, channelScope := req.channelScope,
             createdBy := sessionUserID, maxUses := req.maxUses }

theorem hasPermission_manageTokens (role : Int)
    (h : hasPermission role .manageTokens = true) : role = 2 := by
  unfold hasPermission at h
  by_cases h2 : role = 2
  · exact h2
  · rw [if_neg h2] at h
    by_cases h1 : role = 1
    · rw [if_pos h1] at h
      exact absurd h (by simp)
    · rw [if_neg h1] at h
      by_cases h0 : role = 0
      · rw [if_pos h0] at h
        exact absurd h (by simp)
      · rw [if_neg h0] at h
        exact absurd h (by simp)

theorem parseRole_le_two (s : String) : parseRole s ≤ 2 := by
  unfold parseRole
  repeat' split
  all_goals omega

/-- C8: a successfully created token stores exactly the role the caller
chose (`ParseRole` of the request), and that role is never higher than the
caller's own role: only the admin role (2) passes the `manage_tokens`
permission check, and every parseable role is at most admin. -/
theorem createToken_role_bounded (sessionRole sessionUserID : Int)
    (req : CreateTokenRequest) (tok : StoredToken)
    (h : handleCreateToken sessionRole sessionUserID req = .ok tok) :
    tok.role = parseRole req.role ∧ tok.role ≤ sessionRole := by
  unfold handleCreateToken at h
  by_cases hp : requirePermission sessionRole .manageTokens ≠ ""
  · rw [if_pos hp] at h
    exact absurd h (by simp)
  · rw [if_neg hp] at h
    injection h with h
    have hrole : sessionRole = 2 := by
      apply hasPermission_manageTokens
      unfold requirePermission at hp
      by_cases hh : hasPermission sessionRole .manageTokens = true
      · exact hh
      · rw [if_neg hh] at hp
        simp at hp
    rw [← h, hrole]
    exact ⟨rfl, parseRole_le_two req.role⟩

/-- Witness for C8: an admin (role 2) requesting a moderator token gets a
token whose stored role is 1 ≤ 2. -/
theorem createToken_role_bounded_witness :
    ({ role := 1, channelScope := 0, createdBy := 7, maxUses := 3 } :
        StoredToken).role = parseRole "moderator" ∧
      ({ role := 1, channelScope := 0, createdBy := 7, maxUses := 3 } :
        StoredToken).role ≤ 2 :=
  createToken_role_bounded 2 7
    { role := "moderator", channelScope := 0, maxUses := 3,
      expiresInSeconds := 0 }
    { role := 1, channelScope := 0, createdBy := 7, maxUses := 3 } (by rfl)

end GoSpeak

namespace GoSpeak

/-! ## Token validation (src/pkg/datastore/sql.go, `txProvider.ValidateToken`)

The `tokens` table (hash is UNIQUE) is embedded as an association list from
hash to row; timestamps are `Nat` seconds.  The explicit transaction with
deferred rollback is embedded as a state transformer: every failing branch
returns the store unchanged, the success branch returns the store with the
single `UPDATE … SET use_count = use_count + 1` applied and then committed.
-/

structure Token where
  role : Int
  maxUses : Int
  useCount : Int
  expiresAt : Option Nat
  deriving DecidableEq

inductive TokenError : Type
  | invalidToken
  | tokenExpired
  | tokenExhausted
  deriving DecidableEq

/-- `time.Now().After(exp)` on the nullable expiry column. -/
def tokenExpiredAt (t : Token) (now : Nat) : Bool :=
  match t.expiresAt with
  | some exp => decide (exp < now)
  | none => false

def validateToken (db : List (String × Token)) (now : Nat) (hash : String) :
    Except TokenError Int × List (String × Token) :=
  match alookup db hash with
  | none => (.error .invalidToken, db)
  | some t =>
      if tokenExpiredAt t now then (.error .tokenExpired, db)
      else if 0 < t.maxUses ∧ t.maxUses ≤ t.useCount then
        (.error .tokenExhausted, db)
      else (.ok t.role, aset db hash { t with useCount := t.useCount + 1 })

/-- C1: token validation-and-use performs its checks in order — row fetch
(miss fails with InvalidToken), expiry (TokenExpired), exhaustion
(TokenExhausted) — failing branches leave the store unchanged, and the
success branch increments use_count by one, returns the token's role, and
yields use_count ≤ max_uses whenever max_uses > 0. -/
theorem validateToken_spec (db : List (String × Token)) (now : Nat)
    (hash : String) :
    (alookup db hash = none →
      validateToken db now hash = (.error .invalidToken, db)) ∧
    (∀ t, alookup db hash = some t →
      (tokenExpiredAt t now = true →
        validateToken db now hash = (.error .tokenExpired, db)) ∧
      (tokenExpiredAt t now = false → 0 < t.maxUses → t.maxUses ≤ t.useCount →
        validateToken db now hash = (.error .tokenExhausted, db)) ∧
      (tokenExpiredAt t now = false → ¬(0 < t.maxUses ∧ t.maxUses ≤ t.useCount) →
        validateToken db now hash =
          (.ok t.role, aset db hash { t with useCount := t.useCount + 1 }) ∧
        (0 < t.maxUses → t.useCount + 1 ≤ t.maxUses))) := by
  constructor
  · intro hmiss
    unfold validateToken
    rw [hmiss]
  · intro t hfound
    refine ⟨?_, ?_, ?_⟩
    · intro hexp
      unfold validateToken
      rw [hfound]
      dsimp only
      rw [if_pos hexp]
    · intro hexp hpos hge
      unfold validateToken
      rw [hfound]
      dsimp only
      rw [if_neg (by simp [hexp]), if_pos ⟨hpos, hge⟩]
    · intro hexp hnot
      constructor
      · unfold validateToken
        rw [hfound]
        dsimp only
        rw [if_neg (by simp [hexp]), if_neg hnot]
      · intro hpos
        have : ¬ t.maxUses ≤ t.useCount := fun hle => hnot ⟨hpos, hle⟩
        omega

/-- Witness for C1: a token with max_uses = 2 and use_count = 0 validates
successfully, its use_count becomes 1, and the returned role is the stored
one. -/
theorem validateToken_spec_witness :
    validateToken
        [("h", { role := 1, maxUses := 2, useCount := 0, expiresAt := none })]
        5 "h" =
      (.ok 1,
        [("h", { role := 1, maxUses := 2, useCount := 1, expiresAt := none })]) :=
  (((validateToken_spec
      [("h", { role := 1, maxUses := 2, useCount := 0, expiresAt := none })]
      5 "h").2
    { role := 1, maxUses := 2, useCount := 0, expiresAt := none }
    (by decide)).2.2 (by decide) (by decide)).1

end GoSpeak

namespace GoSpeak

/-! ## Voice packet codec (src/pkg/protocol/protocol.go)

Bytes are `Nat`s below 256 (`% 256` normalizes).  The header is 14 bytes,
big-endian: sessionID(4) | seqNum(4) | timestamp(4) | channelID(2).
-/

def beU32 : List Nat → Nat
  | [b0, b1, b2, b3] =>
      (b0 % 256) * 16777216 + (b1 % 256) * 65536 + (b2 % 256) * 256 + b3 % 256
  | _ => 0

def beU16 : List Nat → Nat
  | [b0, b1] => (b0 % 256) * 256 + b1 % 256
  | _ => 0

structure VoicePacket where
  sessionID : Nat
  seqNum : Nat
  timestamp : Nat
  channelID : Nat
  payload : List Nat
  deriving DecidableEq

/-- `UnmarshalVoicePacket`: fails on packets shorter than the header. -/
def unmarshalVoicePacket (data : List Nat) : Option VoicePacket :=
  if data.length < 14 then none
  else
    some { sessionID := beU32 (data.take 4)
           seqNum := beU32 ((data.drop 4).take 4)
           timestamp := beU32 ((data.drop 8).take 4)
           channelID := beU16 ((data.drop 12).take 2)
           payload := data.drop 14 }

/-! ## Voice SFU loop (src/pkg/server/channels.go, `Server.voiceLoop`)

`Session` carries the fields of the session snapshot that the voice plane
reads: the pinned UDP address (`(ip, port)`, `none` until the first packet),
muted and deafened.  One `voiceStep` is the body of the receive loop for one
datagram; its result is the new server state and the list of
`(destination address, bytes)` UDP writes performed.
-/

structure Session where
  udpAddr : Option (Nat × Nat)
  muted : Bool
  deafened : Bool
  deriving DecidableEq

structure Server where
  sessions : List (Nat × Session)
  channels : ChannelManager
  deriving DecidableEq

/-- `SessionManager.SetUDPAddr`: set the address if the session exists. -/
def setUDPAddr (sessions : List (Nat × Session)) (id : Nat)
    (addr : Nat × Nat) : List (Nat × Session) :=
  match alookup sessions id with
  | none => sessions
  | some s => aset sessions id { s with udpAddr := some addr }

/-- The fan-out over channel members: skip the sender, sessions without a
pinned address, and deafened sessions; everyone else is sent `raw`
unchanged.  Per-member write errors only log, so every attempted write
appears in the result. -/
def forwardFanout (sv : Server) (senderID : Nat) (channelID : Int)
    (raw : List Nat) : List ((Nat × Nat) × List Nat) :=
  (sv.channels.membersOf channelID).filterMap fun memberSID =>
    if memberSID = senderID then none
    else
      match alookup sv.sessions memberSID with
      | none => none
      | some ms =>
          match ms.udpAddr with
          | none => none
          | some addr => if ms.deafened then none else some (addr, raw)

/-- The voice-loop body after the source-address check: mute check, channel
spoof check, then fan-out. -/
def voiceStepAfterPin (sv : Server) (session : Session) (pkt : VoicePacket)
    (raw : List Nat) : Server × List ((Nat × Nat) × List Nat) :=
  if session.muted then (sv, [])
  else
    if sv.channels.channelOf pkt.sessionID = 0 ∨
        sv.channels.channelOf pkt.sessionID ≠ (pkt.channelID : Int) then
      (sv, [])
    else
      (sv, forwardFanout sv pkt.sessionID
        (sv.channels.channelOf pkt.sessionID) raw)

/-- One iteration of `Server.voiceLoop` on one received datagram. -/
def voiceStep (sv : Server) (raw : List Nat) (remoteAddr : Nat × Nat) :
    Server × List ((Nat × Nat) × List Nat) :=
  if raw.length < 14 then (sv, [])
  else
    match unmarshalVoicePacket raw with
    | none => (sv, [])
    | some pkt =>
        match alookup sv.sessions pkt.sessionID with
        | none => (sv, [])
        | some session =>
            match session.udpAddr with
            | none =>
                voiceStepAfterPin
                  { sv with
                    sessions := setUDPAddr sv.sessions pkt.sessionID remoteAddr }
                  session pkt raw
            | some a =>
                if a ≠ remoteAddr then (sv, [])
                else voiceStepAfterPin sv session pkt raw

theorem voiceStepAfterPin_fst (sv : Server) (session : Session)
    (pkt : VoicePacket) (raw : List Nat) :
    (voiceStepAfterPin sv session pkt raw).1 = sv := by
  unfold voiceStepAfterPin
  by_cases h1 : session.muted
  · rw [if_pos h1]
  · rw [if_neg h1]
    by_cases h2 : sv.channels.channelOf pkt.sessionID = 0 ∨
        sv.channels.channelOf pkt.sessionID ≠ (pkt.channelID : Int)
    · rw [if_pos h2]
    · rw [if_neg h2]

end GoSpeak

namespace GoSpeak

theorem unmarshal_length (raw : List Nat) (pkt : VoicePacket)
    (hp : unmarshalVoicePacket raw = some pkt) : ¬ raw.length < 14 := by
  intro h
  unfold unmarshalVoicePacket at hp
  rw [if_pos h] at hp
  exact absurd hp (by simp)

/-- C3: UDP source pinning — when a session has no pinned address, processing
a packet of that session pins the session's address to the observed source;
once pinned, a packet of that session from any other source leaves the state
unchanged and is forwarded to nobody. -/
theorem udp_source_pinning (sv : Server) (raw : List Nat) (src : Nat × Nat)
    (pkt : VoicePacket) (hp : unmarshalVoicePacket raw = some pkt)
    (session : Session)
    (hs : alookup sv.sessions pkt.sessionID = some session) :
    (session.udpAddr = none →
      alookup (voiceStep sv raw src).1.sessions pkt.sessionID =
        some { session with udpAddr := some src }) ∧
    (∀ a, session.udpAddr = some a → a ≠ src →
      voiceStep sv raw src = (sv, [])) := by
  have hlen := unmarshal_length raw pkt hp
  constructor
  · intro hnone
    unfold voiceStep
    rw [if_neg hlen, hp]
    dsimp only
    rw [hs]
    dsimp only
    rw [hnone]
    dsimp only
    rw [voiceStepAfterPin_fst]
    dsimp only
    unfold setUDPAddr
    rw [hs]
    exact alookup_aset_self _ _ _
  · intro a ha hne
    unfold voiceStep
    rw [if_neg hlen, hp]
    dsimp only
    rw [hs]
    dsimp only
    rw [ha]
    dsimp only
    rw [if_pos hne]

/-- Witness for C3: session 1 pinned to (5, 6); a packet for session 1 from
(7, 8) is dropped with no state change and no forwarding. -/
theorem udp_source_pinning_witness :
    voiceStep
        { sessions := [(1, { udpAddr := some (5, 6), muted := false,
                             deafened := false })],
          channels := ChannelManager.empty }
        [0, 0, 0, 1, 0, 0, 0, 2, 0, 0, 0, 0, 0, 3, 9] (7, 8) =
      ({ sessions := [(1, { udpAddr := some (5, 6), muted := false,
                            deafened := false })],
         channels := ChannelManager.empty }, []) :=
  (udp_source_pinning
      { sessions := [(1, { udpAddr := some (5, 6), muted := false,
                           deafened := false })],
        channels := ChannelManager.empty }
      [0, 0, 0, 1, 0, 0, 0, 2, 0, 0, 0, 0, 0, 3, 9] (7, 8)
      { sessionID := 1, seqNum := 2, timestamp := 0, channelID := 3,
        payload := [9] }
      (by decide)
      { udpAddr := some (5, 6), muted := false, deafened := false }
      (by decide)).2
    (5, 6) rfl (by decide)

end GoSpeak

namespace GoSpeak

theorem forwardFanout_spec (sv : Server) (senderID : Nat) (channelID : Int)
    (raw : List Nat) :
    (∀ e ∈ forwardFanout sv senderID channelID raw, e.2 = raw) ∧
    (∀ addr : Nat × Nat,
      (addr, raw) ∈ forwardFanout sv senderID channelID raw ↔
        ∃ m, m ∈ sv.channels.membersOf channelID ∧ m ≠ senderID ∧
          ∃ ms, alookup sv.sessions m = some ms ∧ ms.udpAddr = some addr ∧
            ms.deafened = false) := by
  have hbody : ∀ (m : Nat) (e1 : Nat × Nat) (e2 : List Nat),
      ((if m = senderID then none
        else
          match alookup sv.sessions m with
          | none => none
          | some ms =>
              match ms.udpAddr with
              | none => none
              | some addr => if ms.deafened then none else some (addr, raw)) =
        some (e1, e2)) ↔
      (m ≠ senderID ∧ ∃ ms, alookup sv.sessions m = some ms ∧
        ms.udpAddr = some e1 ∧ ms.deafened = false ∧ e2 = raw) := by
    intro m e1 e2
    by_cases h1 : m = senderID
    · simp [h1]
    · rw [if_neg h1]
      cases h2 : alookup sv.sessions m with
      | none => simp [h1, h2]
      | some ms =>
          cases h3 : ms.udpAddr with
          | none => simp [h1, h2, h3]
          | some addr =>
              by_cases h4 : ms.deafened
              · simp [h1, h2, h3, h4]
              · dsimp only
                rw [h3]
                dsimp only
                rw [if_neg h4]
                constructor
                · intro he
                  injection he with he
                  have ha : addr = e1 := congrArg Prod.fst he
                  have hr : raw = e2 := congrArg Prod.snd he
                  exact ⟨h1, ms, rfl, ha ▸ h3, Bool.eq_false_iff.mpr h4,
                    hr.symm⟩
                · rintro ⟨-, ms2, hms2, hu2, hd2, he2⟩
                  injection hms2 with hms2
                  subst hms2
                  rw [h3] at hu2
                  injection hu2 with hu2
                  rw [hu2, he2]
  constructor
  · intro e he
    obtain ⟨e1, e2⟩ := e
    rw [forwardFanout, List.mem_filterMap] at he
    obtain ⟨m, hm, hfm⟩ := he
    rcases (hbody m e1 e2).mp hfm with ⟨-, -, -, -, -, h5⟩
    exact h5
  · intro addr
    rw [forwardFanout, List.mem_filterMap]
    constructor
    · rintro ⟨m, hm, hfm⟩
      rcases (hbody m addr raw).mp hfm with ⟨hne, ms, hl, hu, hd, -⟩
      exact ⟨m, hm, hne, ms, hl, hu, hd⟩
    · rintro ⟨m, hm, hne, ms, hl, hu, hd⟩
      exact ⟨m, hm, (hbody m addr raw).mpr ⟨hne, ms, hl, hu, hd, rfl⟩⟩

end GoSpeak

namespace GoSpeak

theorem forwardFanout_setAddr (sv : Server) (senderID : Nat)
    (channelID : Int) (raw : List Nat) (src : Nat × Nat) :
    forwardFanout { sv with sessions := setUDPAddr sv.sessions senderID src }
        senderID channelID raw =
      forwardFanout sv senderID channelID raw := by
  unfold forwardFanout
  dsimp only
  apply List.filterMap_congr
  intro m hm
  by_cases hms : m = senderID
  · rw [if_pos hms, if_pos hms]
  · rw [if_neg hms, if_neg hms]
    have heq : alookup (setUDPAddr sv.sessions senderID src) m =
        alookup sv.sessions m := by
      unfold setUDPAddr
      cases h : alookup sv.sessions senderID with
      | none => rfl
      | some s0 => exact alookup_aset_ne _ _ _ _ hms
    rw [heq]

/-- C2: a processed packet whose sender session exists and passes the
source-address check is dropped when the sender is muted or when the claimed
channel differs from the membership map's record (including "in no channel");
otherwise its bytes are forwarded unchanged exactly to the channel members
other than the sender that have a pinned UDP address and are not deafened. -/
theorem voice_forwarding (sv : Server) (raw : List Nat) (src : Nat × Nat)
    (pkt : VoicePacket) (hp : unmarshalVoicePacket raw = some pkt)
    (session : Session)
    (hs : alookup sv.sessions pkt.sessionID = some session)
    (haddr : session.udpAddr = none ∨ session.udpAddr = some src) :
    (session.muted = true → (voiceStep sv raw src).2 = []) ∧
    ((sv.channels.channelOf pkt.sessionID = 0 ∨
        sv.channels.channelOf pkt.sessionID ≠ (pkt.channelID : Int)) →
      (voiceStep sv raw src).2 = []) ∧
    (session.muted = false →
      sv.channels.channelOf pkt.sessionID = (pkt.channelID : Int) →
      (pkt.channelID : Int) ≠ 0 →
      ((∀ e ∈ (voiceStep sv raw src).2, e.2 = raw) ∧
        ∀ addr : Nat × Nat,
          ((addr, raw) ∈ (voiceStep sv raw src).2 ↔
            ∃ m, m ∈ sv.channels.membersOf (pkt.channelID : Int) ∧
              m ≠ pkt.sessionID ∧
              ∃ ms, alookup sv.sessions m = some ms ∧ ms.udpAddr = some addr ∧
                ms.deafened = false))) := by
  have hlen := unmarshal_length raw pkt hp
  have hred : (voiceStep sv raw src).2 =
      (voiceStepAfterPin
        (if session.udpAddr = none then
          { sv with sessions := setUDPAddr sv.sessions pkt.sessionID src }
         else sv) session pkt raw).2 := by
    unfold voiceStep
    rw [if_neg hlen, hp]
    dsimp only
    rw [hs]
    dsimp only
    rcases haddr with hnone | hsome
    · rw [hnone]
      dsimp only
      rw [if_pos rfl]
    · rw [hsome]
      dsimp only
      rw [if_neg (by simp), if_neg (by simp)]
  have hchan :
      (if session.udpAddr = none then
        { sv with sessions := setUDPAddr sv.sessions pkt.sessionID src }
       else sv).channels = sv.channels := by
    by_cases h : session.udpAddr = none
    · rw [if_pos h]
    · rw [if_neg h]
  refine ⟨?_, ?_, ?_⟩
  · intro hm
    rw [hred]
    unfold voiceStepAfterPin
    rw [if_pos hm]
  · intro hmis
    rw [hred]
    unfold voiceStepAfterPin
    by_cases hm : session.muted
    · rw [if_pos hm]
    · rw [if_neg hm, hchan, if_pos hmis]
  · intro hm hcm hnz
    rw [hred]
    unfold voiceStepAfterPin
    rw [if_neg (by simp [hm]), hchan, hcm]
    rw [if_neg (by push_neg; exact ⟨hnz, rfl⟩)]
    by_cases h : session.udpAddr = none
    · rw [if_pos h]
      dsimp only
      rw [forwardFanout_setAddr]
      exact forwardFanout_spec sv pkt.sessionID (pkt.channelID : Int) raw
    · rw [if_neg h]
      exact forwardFanout_spec sv pkt.sessionID (pkt.channelID : Int) raw

end GoSpeak

namespace GoSpeak

/-- Witness for C2: sessions 1 and 2 are in channel 3; session 1 (pinned to
(10, 20), unmuted) sends a packet claiming channel 3, and the bytes are
forwarded unchanged to session 2's pinned address (11, 21). -/
theorem voice_forwarding_witness :
    ((11, 21), [0, 0, 0, 1, 0, 0, 0, 2, 0, 0, 0, 0, 0, 3, 9]) ∈
      (voiceStep
        { sessions := [(1, { udpAddr := some (10, 20), muted := false,
                             deafened := false }),
                       (2, { udpAddr := some (11, 21), muted := false,
                             deafened := false })],
          channels := ((ChannelManager.empty.join 1 3).1.join 2 3).1 }
        [0, 0, 0, 1, 0, 0, 0, 2, 0, 0, 0, 0, 0, 3, 9] (10, 20)).2 := by
  refine (((voice_forwarding
      { sessions := [(1, { udpAddr := some (10, 20), muted := false,
                           deafened := false }),
                     (2, { udpAddr := some (11, 21), muted := false,
                           deafened := false })],
        channels := ((ChannelManager.empty.join 1 3).1.join 2 3).1 }
      [0, 0, 0, 1, 0, 0, 0, 2, 0, 0, 0, 0, 0, 3, 9] (10, 20)
      { sessionID := 1, seqNum := 2, timestamp := 0, channelID := 3,
        payload := [9] }
      (by decide)
      { udpAddr := some (10, 20), muted := false, deafened := false }
      (by decide) (Or.inr rfl)).2.2 rfl (by decide) (by decide)).2
      (11, 21)).mpr ?_
  exact ⟨2, by decide, by decide,
    { udpAddr := some (11, 21), muted := false, deafened := false },
    by decide, rfl, rfl⟩

end GoSpeak

namespace GoSpeak

/-! ## Voice cipher (src/unnamed crypto package: `buildNonce`,
`VoiceCipher.Encrypt`, `VoiceCipher.Decrypt`)

`buildNonce` is embedded from the source: a `nonceSize`-byte buffer whose
first four bytes are the big-endian sessionID and next four the big-endian
seqNum, the rest zero (`NewVoiceCipher` guarantees `nonceSize ≥ 8`).

Modelled from the spec: the underlying Go `cipher.AEAD` (AES-GCM or
ChaCha20-Poly1305 from the Go standard library, not part of this repository)
is idealized — `Seal` packages nonce, additional data and plaintext into an
opaque sealed value, and `Open` succeeds exactly on sealed values whose
nonce and additional data match the ones supplied, returning the original
plaintext ("decrypt verifies AD+tag or fails with DecryptionFailed").
-/

/-- `binary.BigEndian.PutUint32`: four big-endian bytes of a uint32. -/
def toBE4 (x : Nat) : List Nat :=
  [x / 16777216 % 256, x / 65536 % 256, x / 256 % 256, x % 256]

def buildNonce (sessionID seqNum : Nat) (nonceSize : Nat) : List Nat :=
  toBE4 sessionID ++ toBE4 seqNum ++ List.replicate (nonceSize - 8) 0

structure SealedBox where
  nonce : List Nat
  ad : List Nat
  plaintext : List Nat
  deriving DecidableEq

def aeadSeal (nonce ad plaintext : List Nat) : SealedBox :=
  { nonce := nonce, ad := ad, plaintext := plaintext }

def aeadOpen (nonce ad : List Nat) (box : SealedBox) : Option (List Nat) :=
  if box.nonce = nonce ∧ box.ad = ad then some box.plaintext else none

inductive CryptoError : Type
  | decryptionFailed
  deriving DecidableEq

structure VoiceCipher where
  nonceSize : Nat
  deriving DecidableEq

/-- `VoiceCipher.Encrypt`: seal the Opus frame under the deterministic nonce,
authenticating the header as additional data. -/
def VoiceCipher.encrypt (vc : VoiceCipher) (sessionID seqNum : Nat)
    (header opus : List Nat) : SealedBox :=
  aeadSeal (buildNonce sessionID seqNum vc.nonceSize) header opus

/-- `VoiceCipher.Decrypt`: open under the deterministic nonce and header;
any AEAD failure is collapsed to `ErrDecryptionFailed`. -/
def VoiceCipher.decrypt (vc : VoiceCipher) (sessionID seqNum : Nat)
    (header : List Nat) (ciphertext : SealedBox) :
    Except CryptoError (List Nat) :=
  match aeadOpen (buildNonce sessionID seqNum vc.nonceSize) header ciphertext with
  | some plaintext => .ok plaintext
  | none => .error .decryptionFailed

theorem toBE4_inj (x y : Nat) (hx : x < 4294967296) (hy : y < 4294967296)
    (h : toBE4 x = toBE4 y) : x = y := by
  unfold toBE4 at h
  simp only [List.cons.injEq, and_true] at h
  omega

theorem buildNonce_inj (sid1 seq1 sid2 seq2 n : Nat)
    (h1s : sid1 < 4294967296) (h1q : seq1 < 4294967296)
    (h2s : sid2 < 4294967296) (h2q : seq2 < 4294967296)
    (h : buildNonce sid1 seq1 n = buildNonce sid2 seq2 n) :
    sid1 = sid2 ∧ seq1 = seq2 := by
  unfold buildNonce at h
  have hA : toBE4 sid1 = toBE4 sid2 := by
    have h2 := congrArg (fun l => List.take 4 l) h
    simpa [toBE4] using h2
  have hB : toBE4 seq1 = toBE4 seq2 := by
    have h2 := congrArg (fun l => List.take 4 (List.drop 4 l)) h
    simpa [toBE4] using h2
  exact ⟨toBE4_inj _ _ h1s h2s hA, toBE4_inj _ _ h1q h2q hB⟩

/-- C6: the AEAD nonce used for every voice-frame encryption and decryption
is sessionID (4 bytes big-endian) ‖ seqNum (4 bytes big-endian) ‖ zero
padding to the cipher's nonce size, and this nonce determines (sessionID,
seqNum) uniquely, so nonces never repeat while (sessionID, seqNum) pairs do
not. -/
theorem nonce_format_and_unique (sessionID seqNum n : Nat) (hn : 8 ≤ n)
    (hs : sessionID < 4294967296) (hq : seqNum < 4294967296) :
    (∀ header opus : List Nat,
      ((VoiceCipher.mk n).encrypt sessionID seqNum header opus).nonce =
        buildNonce sessionID seqNum n) ∧
    (buildNonce sessionID seqNum n).length = n ∧
    (buildNonce sessionID seqNum n).take 4 = toBE4 sessionID ∧
    ((buildNonce sessionID seqNum n).drop 4).take 4 = toBE4 seqNum ∧
    (buildNonce sessionID seqNum n).drop 8 = List.replicate (n - 8) 0 ∧
    (∀ sid2 seq2, sid2 < 4294967296 → seq2 < 4294967296 →
      buildNonce sid2 seq2 n = buildNonce sessionID seqNum n →
      sid2 = sessionID ∧ seq2 = seqNum) := by
  refine ⟨fun header opus => rfl, ?_, ?_, ?_, ?_, ?_⟩
  · simp [buildNonce, toBE4]
    omega
  · simp [buildNonce, toBE4]
  · simp [buildNonce, toBE4]
  · simp [buildNonce, toBE4]
  · intro sid2 seq2 h2s h2q heq
    exact buildNonce_inj sid2 seq2 sessionID seqNum n h2s h2q hs hq heq

/-- Witness for C6: with the 12-byte nonce of AES-GCM, session 7 and
sequence 9 produce the nonce 00 00 00 07 00 00 00 09 00 00 00 00, and only
(7, 9) produces it. -/
theorem nonce_format_and_unique_witness :
    buildNonce 7 9 12 = [0, 0, 0, 7, 0, 0, 0, 9, 0, 0, 0, 0] ∧ (7 : Nat) = 7 ∧
      (9 : Nat) = 9 :=
  ⟨by decide,
   (nonce_format_and_unique 7 9 12 (by decide) (by decide) (by decide)).2.2.2.2.2
     7 9 (by decide) (by decide) (by decide)⟩

end GoSpeak

namespace GoSpeak

/-- Counterexample for C5 as stated: a ciphertext that differs from the one
Encrypt produced (here: the encryption of a different plaintext under the
same nonce and header) is decrypted successfully rather than failing, so
"Decrypt fails if the ciphertext differs" is false — it contradicts the
round-trip property for any other plaintext. -/
theorem aead_tamper_claim_counterexample :
    (VoiceCipher.mk 12).encrypt 1 2 [3] [5] ≠
        (VoiceCipher.mk 12).encrypt 1 2 [3] [4] ∧
      (VoiceCipher.mk 12).decrypt 1 2 [3]
          ((VoiceCipher.mk 12).encrypt 1 2 [3] [5]) = .ok [5] :=
  ⟨by decide, by rfl⟩

/-- C5 (amended): AEAD round-trip — Decrypt ∘ Encrypt is the identity for
every plaintext, header, session_id and seq_num; Decrypt fails with
DecryptionFailed whenever the header or the nonce inputs (session_id,
seq_num) differ from those used by Encrypt; and every successful Decrypt
returns the unique plaintext whose encryption under the same (session_id,
seq_num, header) is the given ciphertext, so a ciphertext not legitimately
produced under that nonce and header fails. -/
theorem aead_roundtrip (vc : VoiceCipher) (sessionID seqNum : Nat)
    (header m : List Nat) (hn : 8 ≤ vc.nonceSize)
    (hs : sessionID < 4294967296) (hq : seqNum < 4294967296) :
    vc.decrypt sessionID seqNum header
        (vc.encrypt sessionID seqNum header m) = .ok m ∧
    (∀ sid2 seq2 header2, sid2 < 4294967296 → seq2 < 4294967296 →
      ¬(sid2 = sessionID ∧ seq2 = seqNum ∧ header2 = header) →
      vc.decrypt sid2 seq2 header2 (vc.encrypt sessionID seqNum header m) =
        .error .decryptionFailed) ∧
    (∀ ct m2, vc.decrypt sessionID seqNum header ct = .ok m2 →
      ct = vc.encrypt sessionID seqNum header m2) := by
  refine ⟨?_, ?_, ?_⟩
  · unfold VoiceCipher.decrypt VoiceCipher.encrypt aeadSeal aeadOpen
    rw [if_pos ⟨rfl, rfl⟩]
  · intro sid2 seq2 header2 h2s h2q hne
    unfold VoiceCipher.decrypt VoiceCipher.encrypt aeadSeal aeadOpen
    rw [if_neg ?_]
    intro hcon
    obtain ⟨hnonce, had⟩ := hcon
    dsimp only at hnonce had
    have hinj := buildNonce_inj sid2 seq2 sessionID seqNum vc.nonceSize h2s
      h2q hs hq hnonce.symm
    exact hne ⟨hinj.1, hinj.2, had.symm⟩
  · intro ct m2 hok
    unfold VoiceCipher.decrypt at hok
    cases hopen : aeadOpen (buildNonce sessionID seqNum vc.nonceSize) header ct with
    | none => rw [hopen] at hok; exact absurd hok (by simp)
    | some pt =>
        rw [hopen] at hok
        injection hok with hok
        unfold aeadOpen at hopen
        by_cases hcond : ct.nonce = buildNonce sessionID seqNum vc.nonceSize ∧
            ct.ad = header
        · rw [if_pos hcond] at hopen
          injection hopen with hopen
          unfold VoiceCipher.encrypt aeadSeal
          obtain ⟨ctn, cta, ctp⟩ := ct
          dsimp only at hcond hopen
          rw [hcond.1, hcond.2, hopen, hok]
        · rw [if_neg hcond] at hopen
          exact absurd hopen (by simp)

/-- Witness for C5: with the 12-byte AES-GCM nonce size, encrypting [4]
under session 1, sequence 2, header [3] and decrypting with the same inputs
returns [4]. -/
theorem aead_roundtrip_witness :
    (VoiceCipher.mk 12).decrypt 1 2 [3]
        ((VoiceCipher.mk 12).encrypt 1 2 [3] [4]) = .ok [4] :=
  (aead_roundtrip (VoiceCipher.mk 12) 1 2 [3] [4] (by decide) (by decide)
    (by decide)).1

end GoSpeak

namespace GoSpeak

/-! ## Jitter buffer (src/unnamed client package: `JitterBuffer`)

`frames : map[uint32][]byte` is an association list; `nextSeq` is a uint32
(`Nat` with explicit `% 2^32` where the source increments or adds).
Constants from the source: `jitterBufSize = 5`, `maxJitterDelay = 10`.
-/

def jitterBufSize : Nat := 5

def maxJitterDelay : Nat := 10

/-- Distance between sequence numbers (both branches subtract the smaller
from the larger, so uint32 subtraction is exact). -/
def seqDiff (a b : Nat) : Nat := if b ≤ a then a - b else b - a

structure JitterBuffer where
  frames : List (Nat × List Nat)
  nextSeq : Nat
  ready : Bool
  deriving DecidableEq

/-- `NewJitterBuffer`: empty frames, zero-valued nextSeq, not ready. -/
def newJitterBuffer : JitterBuffer :=
  { frames := [], nextSeq := 0, ready := false }

/-- `cleanup`: drop frames whose sequence is more than `3 × jitterBufSize`
away from `nextSeq`. -/
def JitterBuffer.cleanup (jb : JitterBuffer) : JitterBuffer :=
  { jb with frames := jb.frames.filter fun p =>
      decide (seqDiff p.1 jb.nextSeq ≤ jitterBufSize * 3) }

/-- `Push`: on the first push adopt the pushed seq as `nextSeq`; store the
frame (overwriting any duplicate); clean up if the buffer exceeds
`3 × jitterBufSize` entries. -/
def JitterBuffer.push (jb : JitterBuffer) (seqNum : Nat)
    (payload : List Nat) : JitterBuffer :=
  let jb1 := if jb.ready then jb
             else { jb with nextSeq := seqNum, ready := true }
  let jb2 := { jb1 with frames := aset jb1.frames seqNum payload }
  if jitterBufSize * 3 < jb2.frames.length then jb2.cleanup else jb2

/-- The lookahead scan of `Pop`: is any of the next `maxJitterDelay`
sequence numbers buffered? -/
def lookaheadHit (frames : List (Nat × List Nat)) (nextSeq : Nat) : Bool :=
  (List.range maxJitterDelay).any fun i =>
    (alookup frames ((nextSeq + i + 1) % 4294967296)).isSome

/-- `Pop`: `none` = "not ready yet"; `some (some f, seq)` = frame delivered;
`some (none, seq)` = frame reported lost (apply PLC). -/
def JitterBuffer.pop (jb : JitterBuffer) :
    JitterBuffer × Option (Option (List Nat) × Nat) :=
  if jb.ready = false then (jb, none)
  else
    match alookup jb.frames jb.nextSeq with
    | some frame =>
        ({ jb with
            frames := aerase jb.frames jb.nextSeq
            nextSeq := (jb.nextSeq + 1) % 4294967296 },
         some (some frame, jb.nextSeq))
    | none =>
        if lookaheadHit jb.frames jb.nextSeq then
          ({ jb with nextSeq := (jb.nextSeq + 1) % 4294967296 },
           some (none, jb.nextSeq))
        else (jb, none)

/-- Push a list of (seq, payload) pairs in order. -/
def pushAll (jb : JitterBuffer) (ps : List (Nat × List Nat)) : JitterBuffer :=
  ps.foldl (fun b p => b.push p.1 p.2) jb

/-- Pop up to `n` times, collecting deliveries until the buffer reports
"not ready". -/
def popN : JitterBuffer → Nat → List (Option (List Nat) × Nat)
  | _, 0 => []
  | jb, Nat.succ n =>
      match jb.pop with
      | (jb2, some r) => r :: popN jb2 n
      | (_, none) => []

/-- Counterexample for C7 as stated: pushing the permutation [1, 0] of
[0, 1] (k = 0, n = 1) does not pop 0 then 1 — `nextSeq` is set by the
*first* push, so the buffer delivers seq 1 and then reports "not ready",
and seq 0 is never delivered. -/
theorem jitter_first_push_counterexample :
    popN ((newJitterBuffer.push 1 [10]).push 0 [20]) 2 =
      [(some [10], 1)] := by decide

end GoSpeak

namespace GoSpeak

theorem alookup_ne_none_of_mem_akeys {α β : Type} [DecidableEq α]
    (l : List (α × β)) (x : α) (h : x ∈ akeys l) : alookup l x ≠ none := by
  induction l with
  | nil => simp [akeys] at h
  | cons p rest ih =>
      obtain ⟨k0, v0⟩ := p
      simp only [akeys, List.map_cons, List.mem_cons] at h
      by_cases hk : k0 = x
      · simp [alookup, hk]
      · simp only [alookup, if_neg hk]
        rcases h with h | h
        · exact absurd h.symm hk
        · exact ih h

theorem length_aset_of_not_mem {α β : Type} [DecidableEq α]
    (l : List (α × β)) (k : α) (v : β) (h : k ∉ akeys l) :
    (aset l k v).length = l.length + 1 := by
  induction l with
  | nil => simp [aset]
  | cons p rest ih =>
      obtain ⟨k0, v0⟩ := p
      simp only [akeys, List.map_cons, List.mem_cons] at h
      push_neg at h
      have hk : ¬ (k0 = k) := fun hh => h.1 hh.symm
      simp only [aset, if_neg hk, List.length_cons]
      rw [ih h.2]

theorem pop_deliver (jb : JitterBuffer) (f : List Nat)
    (hr : jb.ready = true) (hl : alookup jb.frames jb.nextSeq = some f) :
    jb.pop =
      ({ jb with
          frames := aerase jb.frames jb.nextSeq
          nextSeq := (jb.nextSeq + 1) % 4294967296 },
       some (some f, jb.nextSeq)) := by
  unfold JitterBuffer.pop
  rw [if_neg (by rw [hr]; simp), hl]

theorem pop_lost (jb : JitterBuffer)
    (hr : jb.ready = true) (hl : alookup jb.frames jb.nextSeq = none)
    (hhit : lookaheadHit jb.frames jb.nextSeq = true) :
    jb.pop =
      ({ jb with nextSeq := (jb.nextSeq + 1) % 4294967296 },
       some (none, jb.nextSeq)) := by
  unfold JitterBuffer.pop
  rw [if_neg (by rw [hr]; simp), hl]
  dsimp only
  rw [if_pos hhit]

theorem pop_delivered_shape (jb jb2 : JitterBuffer)
    (r : Option (List Nat) × Nat) (h : jb.pop = (jb2, some r)) :
    r.2 = jb.nextSeq ∧ jb2.nextSeq = (jb.nextSeq + 1) % 4294967296 ∧
      jb2.ready = jb.ready := by
  unfold JitterBuffer.pop at h
  by_cases hr : jb.ready = false
  · rw [if_pos hr] at h
    injection h with h1 h2
    exact absurd h2 (by simp)
  · rw [if_neg hr] at h
    cases hl : alookup jb.frames jb.nextSeq with
    | some f =>
        rw [hl] at h
        dsimp only at h
        injection h with h1 h2
        injection h2 with h2
        rw [← h1, ← h2]
        exact ⟨rfl, rfl, rfl⟩
    | none =>
        rw [hl] at h
        dsimp only at h
        by_cases hhit : lookaheadHit jb.frames jb.nextSeq = true
        · rw [if_pos hhit] at h
          injection h with h1 h2
          injection h2 with h2
          rw [← h1, ← h2]
          exact ⟨rfl, rfl, rfl⟩
        · rw [if_neg hhit] at h
          injection h with h1 h2
          exact absurd h2 (by simp)

theorem popN_succ_some (jb jb2 : JitterBuffer) (r : Option (List Nat) × Nat)
    (c : Nat) (h : jb.pop = (jb2, some r)) :
    popN jb (c + 1) = r :: popN jb2 c := by
  show (match jb.pop with
        | (jb2, some r) => r :: popN jb2 c
        | (_, none) => []) = r :: popN jb2 c
  rw [h]

theorem popN_succ_none (jb jb2 : JitterBuffer) (c : Nat)
    (h : jb.pop = (jb2, none)) : popN jb (c + 1) = [] := by
  show (match jb.pop with
        | (jb2, some r) => r :: popN jb2 c
        | (_, none) => []) = []
  rw [h]

theorem lookaheadHit_iff (frames : List (Nat × List Nat)) (nextSeq : Nat) :
    lookaheadHit frames nextSeq = true ↔
      ∃ i, 1 ≤ i ∧ i ≤ 10 ∧
        (alookup frames ((nextSeq + i) % 4294967296)).isSome = true := by
  unfold lookaheadHit maxJitterDelay
  rw [List.any_eq_true]
  constructor
  · rintro ⟨i, hi, hsome⟩
    rw [List.mem_range] at hi
    refine ⟨i + 1, by omega, by omega, ?_⟩
    have harith : nextSeq + i + 1 = nextSeq + (i + 1) := by omega
    rw [← harith]
    exact hsome
  · rintro ⟨i, h1, h10, hsome⟩
    refine ⟨i - 1, by rw [List.mem_range]; omega, ?_⟩
    have harith : nextSeq + (i - 1) + 1 = nextSeq + i := by omega
    rw [harith]
    exact hsome

end GoSpeak

namespace GoSpeak

theorem popN_consume (pl : Nat → List Nat) :
    ∀ (c : Nat) (jb : JitterBuffer),
      jb.ready = true → (akeys jb.frames).Nodup →
      jb.nextSeq + c ≤ 4294967296 →
      (∀ s, alookup jb.frames s =
        if jb.nextSeq ≤ s ∧ s < jb.nextSeq + c then some (pl s) else none) →
      popN jb c = (List.range' jb.nextSeq c).map fun s => (some (pl s), s) := by
  intro c
  induction c with
  | zero =>
      intro jb _ _ _ _
      rfl
  | succ c ih =>
      intro jb hr hnd hle hchar
      have hlookup : alookup jb.frames jb.nextSeq = some (pl jb.nextSeq) := by
        rw [hchar jb.nextSeq, if_pos ⟨le_refl _, by omega⟩]
      have hpop := pop_deliver jb (pl jb.nextSeq) hr hlookup
      rw [popN_succ_some _ _ _ c hpop, List.range'_succ, List.map_cons]
      congr 1
      rcases Nat.eq_zero_or_pos c with hc0 | hcpos
      · subst hc0
        rfl
      · have hmod : (jb.nextSeq + 1) % 4294967296 = jb.nextSeq + 1 :=
          Nat.mod_eq_of_lt (by omega)
        have hchar2 : ∀ s,
            alookup (aerase jb.frames jb.nextSeq) s =
              if jb.nextSeq + 1 ≤ s ∧ s < jb.nextSeq + 1 + c then some (pl s)
              else none := by
          intro s
          by_cases hs : s = jb.nextSeq
          · subst hs
            rw [alookup_aerase_self _ _ hnd, if_neg (by omega)]
          · rw [alookup_aerase_ne _ _ _ hs, hchar s]
            have hiff : (jb.nextSeq ≤ s ∧ s < jb.nextSeq + (c + 1)) ↔
                (jb.nextSeq + 1 ≤ s ∧ s < jb.nextSeq + 1 + c) := by omega
            rw [if_congr hiff rfl rfl]
        have htail := ih
          { jb with
            frames := aerase jb.frames jb.nextSeq
            nextSeq := (jb.nextSeq + 1) % 4294967296 }
          hr (nodup_akeys_aerase _ _ hnd)
          (by dsimp only; omega)
          (by dsimp only; rw [hmod]; exact hchar2)
        rw [htail]
        dsimp only
        rw [hmod]

theorem popN_range :
    ∀ (c : Nat) (jb : JitterBuffer),
      jb.nextSeq + c ≤ 4294967296 →
      (popN jb c).map Prod.snd =
        List.range' jb.nextSeq ((popN jb c).length) := by
  intro c
  induction c with
  | zero => intro jb _; rfl
  | succ c ih =>
      intro jb hle
      cases hpop : jb.pop with
      | mk jb2 o =>
          cases o with
          | none =>
              rw [popN_succ_none _ _ c hpop]
              rfl
          | some r =>
              rw [popN_succ_some _ _ _ c hpop]
              obtain ⟨hr2, hn2, -⟩ := pop_delivered_shape jb jb2 r hpop
              simp only [List.map_cons, List.length_cons, List.range'_succ]
              rw [hr2]
              congr 1
              rcases Nat.eq_zero_or_pos c with hc0 | hcpos
              · subst hc0
                rfl
              · have hmod : (jb.nextSeq + 1) % 4294967296 = jb.nextSeq + 1 :=
                  Nat.mod_eq_of_lt (by omega)
                have := ih jb2 (by rw [hn2, hmod]; omega)
                rw [this, hn2, hmod]

end GoSpeak

namespace GoSpeak

theorem pushAll_state (k : Nat) (pl : Nat → List Nat) :
    ∀ (rest : List Nat) (jb : JitterBuffer) (S : List Nat),
      jb.ready = true → jb.nextSeq = k →
      (akeys jb.frames).Nodup →
      (∀ s, alookup jb.frames s = if s ∈ S then some (pl s) else none) →
      jb.frames.length = S.length →
      (∀ s ∈ rest, s ∉ S) → rest.Nodup →
      S.length + rest.length ≤ 15 →
      (pushAll jb (rest.map fun s => (s, pl s))).ready = true ∧
      (pushAll jb (rest.map fun s => (s, pl s))).nextSeq = k ∧
      (akeys (pushAll jb (rest.map fun s => (s, pl s))).frames).Nodup ∧
      (∀ s, alookup (pushAll jb (rest.map fun s => (s, pl s))).frames s =
        if s ∈ S ++ rest then some (pl s) else none) ∧
      (pushAll jb (rest.map fun s => (s, pl s))).frames.length =
        S.length + rest.length := by
  intro rest
  induction rest with
  | nil =>
      intro jb S hr hn hnd hchar hlen hdisj hndrest hb
      refine ⟨hr, hn, hnd, ?_, ?_⟩
      · intro s
        show alookup jb.frames s = if s ∈ S ++ [] then some (pl s) else none
        rw [hchar s]
        simp
      · show jb.frames.length = S.length + List.length []
        simpa using hlen
  | cons s0 rest ih =>
      intro jb S hr hn hnd hchar hlen hdisj hndrest hb
      simp only [List.length_cons] at hb
      have hnotmem : s0 ∉ akeys jb.frames := by
        intro hmem
        have h2 := alookup_ne_none_of_mem_akeys _ _ hmem
        rw [hchar s0, if_neg (hdisj s0 (List.mem_cons_self _ _))] at h2
        exact h2 rfl
      have hsetlen : (aset jb.frames s0 (pl s0)).length = S.length + 1 := by
        rw [length_aset_of_not_mem _ _ _ hnotmem, hlen]
      have hpush : jb.push s0 (pl s0) =
          { jb with frames := aset jb.frames s0 (pl s0) } := by
        unfold JitterBuffer.push
        dsimp only
        rw [if_pos hr]
        rw [if_neg (by rw [hsetlen]; unfold jitterBufSize; omega)]
      have hstep : pushAll jb ((s0 :: rest).map fun s => (s, pl s)) =
          pushAll (jb.push s0 (pl s0)) (rest.map fun s => (s, pl s)) := rfl
      rw [hstep, hpush]
      have hchar1 : ∀ s, alookup (aset jb.frames s0 (pl s0)) s =
          if s ∈ S ++ [s0] then some (pl s) else none := by
        intro s
        by_cases hs : s = s0
        · subst hs
          rw [alookup_aset_self, if_pos (by simp)]
        · rw [alookup_aset_ne _ _ _ _ hs, hchar s]
          have hiff : s ∈ S ↔ s ∈ S ++ [s0] := by simp [hs]
          rw [if_congr hiff rfl rfl]
      have hdisj1 : ∀ s ∈ rest, s ∉ S ++ [s0] := by
        intro s hsrest
        rw [List.mem_append, List.mem_singleton]
        push_neg
        refine ⟨hdisj s (List.mem_cons_of_mem _ hsrest), ?_⟩
        intro heq
        rw [List.nodup_cons] at hndrest
        exact hndrest.1 (heq ▸ hsrest)
      have hres := ih { jb with frames := aset jb.frames s0 (pl s0) }
        (S ++ [s0]) hr hn (nodup_akeys_aset _ _ _ hnd) hchar1
        (by simpa using hsetlen) hdisj1
        (by rw [List.nodup_cons] at hndrest; exact hndrest.2)
        (by simp only [List.length_append, List.length_singleton]; omega)
      obtain ⟨h1, h2, h3, h4, h5⟩ := hres
      refine ⟨h1, h2, h3, ?_, ?_⟩
      · intro s
        rw [h4 s]
        have hiff : s ∈ (S ++ [s0]) ++ rest ↔ s ∈ S ++ s0 :: rest := by
          simp [List.mem_append, or_assoc]
        rw [if_congr hiff rfl rfl]
      · rw [h5, List.length_append, List.length_singleton, List.length_cons]
        omega

end GoSpeak

namespace GoSpeak

/-- C7 (amended): (1) pushing the sequence numbers k, k+1, …, k+n each once,
with k pushed first (the buffer adopts the *first* pushed seq as its start)
and n ≤ 14 (within the cleanup bound of 3 × jitterBufSize frames), in any
order of the remaining seqs, yields pops in order k, k+1, …, k+n with their
payloads; (2) a missing next sequence number is reported once as a lost
frame (nil payload with that seq) exactly when some later sequence number is
present within the 10-frame lookahead window; (3) the sequence numbers
delivered by successive pops are pairwise distinct, so pushing the same
sequence number twice produces no duplicate delivery. -/
theorem jitterBuffer_ordering :
    (∀ (k n : Nat) (pl : Nat → List Nat) (order : List Nat),
      order.Perm (List.range' (k + 1) n) → n ≤ 14 → k + n < 4294967296 →
      popN (pushAll newJitterBuffer
          ((k, pl k) :: order.map fun s => (s, pl s))) (n + 1) =
        (List.range' k (n + 1)).map fun s => (some (pl s), s)) ∧
    (∀ jb : JitterBuffer, jb.ready = true →
      alookup jb.frames jb.nextSeq = none →
      (lookaheadHit jb.frames jb.nextSeq = true ↔
        ∃ i, 1 ≤ i ∧ i ≤ 10 ∧
          (alookup jb.frames ((jb.nextSeq + i) % 4294967296)).isSome = true) ∧
      (lookaheadHit jb.frames jb.nextSeq = true →
        jb.pop = ({ jb with nextSeq := (jb.nextSeq + 1) % 4294967296 },
          some (none, jb.nextSeq)))) ∧
    (∀ (jb : JitterBuffer) (c : Nat), jb.nextSeq + c ≤ 4294967296 →
      ((popN jb c).map Prod.snd).Nodup) := by
  refine ⟨?_, ?_, ?_⟩
  · intro k n pl order hperm hn hk
    have hfirst : pushAll newJitterBuffer
        ((k, pl k) :: order.map fun s => (s, pl s)) =
        pushAll { frames := [(k, pl k)], nextSeq := k, ready := true }
          (order.map fun s => (s, pl s)) := rfl
    rw [hfirst]
    have hstate := pushAll_state k pl order
      { frames := [(k, pl k)], nextSeq := k, ready := true } [k]
      rfl rfl (by simp [akeys])
      (by
        intro s
        show (if k = s then some (pl k) else none) =
          if s ∈ [k] then some (pl s) else none
        by_cases hs : k = s
        · subst hs
          simp
        · rw [if_neg hs, if_neg (by
            rw [List.mem_singleton]
            exact fun hh => hs hh.symm)])
      rfl
      (by
        intro s hso
        rw [List.mem_singleton]
        have := hperm.mem_iff.mp hso
        rw [List.mem_range'_1] at this
        omega)
      (hperm.nodup_iff.mpr (List.nodup_range' _ _))
      (by
        have := hperm.length_eq
        rw [List.length_range'] at this
        simp only [List.length_singleton]
        omega)
    obtain ⟨h1, h2, h3, h4, h5⟩ := hstate
    have hfin := popN_consume pl (n + 1)
      (pushAll { frames := [(k, pl k)], nextSeq := k, ready := true }
        (order.map fun s => (s, pl s)))
      h1 h3 (by rw [h2]; omega)
      (by
        intro s
        rw [h4 s, h2]
        have hiff : s ∈ [k] ++ order ↔ k ≤ s ∧ s < k + (n + 1) := by
          rw [List.mem_append, List.mem_singleton, hperm.mem_iff,
            List.mem_range'_1]
          omega
        rw [if_congr hiff rfl rfl])
    rw [hfin, h2]
  · intro jb hr hmiss
    exact ⟨lookaheadHit_iff jb.frames jb.nextSeq,
      fun hhit => pop_lost jb hr hmiss hhit⟩
  · intro jb c hle
    rw [popN_range c jb hle]
    exact List.nodup_range' _ _

/-- Witness for C7: pushing seqs 5, 7, 6 (payload [s] for seq s) pops
(5, [5]), (6, [6]), (7, [7]) in order. -/
theorem jitterBuffer_ordering_witness :
    popN (pushAll newJitterBuffer
        ((5, [5]) :: ([7, 6].map fun s => (s, [s])))) 3 =
      (List.range' 5 3).map fun s => (some [s], s) :=
  jitterBuffer_ordering.1 5 2 (fun s => [s]) [7, 6] (by decide) (by decide)
    (by decide)

end GoSpeak
